import Mathlib

/-!
Verification development for the chunk-streaming / fog-of-war multiplayer
client (src/game.js, class VikingSettlementTycoon).

The JavaScript source is shallowly embedded as follows:

* World coordinates (JS numbers) are modelled as rationals.
* The JS `Map` objects (`loadedChunks`, `fogOfWar`, keyed by the string
  `"x,y"`) are modelled as association lists keyed by the integer pair
  itself; the string key encoding `chunkX + "," + chunkY` is injective on
  integer pairs, so the pair is used directly as the canonical key.
* A fog mask (a 512x512 canvas holding per-pixel alpha) is modelled as a
  total function from integer pixel coordinates to a rational opacity.
  The canvas quantises alpha to 8 bits and clips drawing to its bounds;
  neither matters to any statement below (all statements are pointwise and
  every counterexample holds in both the exact and the quantised model).
* The canvas radial-gradient erase (globalCompositeOperation
  destination-out) multiplies the destination alpha by (1 - source alpha).
  The gradient has colour stops 0 -> 0.9, 0.7 -> 0.5, 1 -> 0, linear in
  the distance from the centre.  Since the Euclidean distance of a pixel
  is irrational in general, the embedding evaluates the profile on the
  squared distance, interpolating linearly in squared distance between the
  same stops; it agrees with the canvas gradient at the centre, at 0.7r,
  at r and beyond r, is monotone in between, and takes values in the same
  range [0, 0.9].  No theorem or counterexample below depends on the
  interpolation law between the stops.
* `isFinite` guards in the source are identically true in the rational
  model and are noted where they occur.
-/

/-- Integer chunk coordinate pair, the canonical cache key
(JS `getChunkKey(chunkX, chunkY)` returns the injective string encoding). -/
abbrev ChunkCoord := ℤ × ℤ

/-- JS `this.chunkSize = 512`. -/
def chunkSize : ℚ := 512

/-- JS `this.chunkLoadRadius = 3`. -/
def chunkLoadRadius : ℤ := 3

/-- JS `getChunkCoords(worldX, worldY)`:
`Math.floor(worldX / this.chunkSize)` on each axis independently. -/
def getChunkCoords (worldX worldY : ℚ) : ChunkCoord :=
  (⌊worldX / chunkSize⌋, ⌊worldY / chunkSize⌋)

/-- Association-list model of `Map.get`: first entry with the given key. -/
def mapLookup {α β : Type} [DecidableEq α] (k : α) : List (α × β) → Option β
  | [] => none
  | e :: rest => if e.1 = k then some e.2 else mapLookup k rest

/-- Association-list model of `Map.set`: replace in place, else append. -/
def mapInsert {α β : Type} [DecidableEq α] (k : α) (v : β) : List (α × β) → List (α × β)
  | [] => [(k, v)]
  | e :: rest => if e.1 = k then (k, v) :: rest else e :: mapInsert k v rest

/-- Association-list model of `Map.delete`. -/
def mapDelete {α β : Type} [DecidableEq α] (k : α) (m : List (α × β)) : List (α × β) :=
  m.filter (fun e => e.1 ≠ k)

/-- Chunk payload fields the core uses: the chunk coordinate stored inside
the chunk record (`chunk.x`, `chunk.y`, used by `unloadDistantChunks`) and
the world-space origin (`chunk.worldX`, `chunk.worldY`, used by the reveal
tick for chunk-local coordinates).  The terrain content layers are opaque
to every claim and are omitted. -/
structure ChunkData where
  x : ℤ
  y : ℤ
  worldX : ℚ
  worldY : ℚ
deriving DecidableEq

/-- Per-chunk fog mask: per-pixel opacity. -/
abbrev FogMask := ℤ × ℤ → ℚ

/-- One element of `this.revealAnimations` (see `revealArea`). -/
structure RevealAnim where
  x : ℚ
  y : ℚ
  radius : ℚ
  targetRadius : ℚ
  startTime : ℤ
  duration : ℤ
  chunkX : ℤ
  chunkY : ℤ
deriving DecidableEq

/-- The chunk-cache / fog subsystem of the game object: `loadedChunks`,
`fogOfWar` and `revealAnimations`.  The remaining session state lives in
separate structures below. -/
structure GameState where
  loadedChunks : List (ChunkCoord × ChunkData)
  fogOfWar : List (ChunkCoord × FogMask)
  revealAnimations : List RevealAnim

/-- Connection flags: `this.socket` nullness and `this.isConnected`. -/
structure NetState where
  socketExists : Bool
  isConnected : Bool

/-- The outbound gate used throughout the source: `this.socket && this.isConnected`. -/
def sendGate (n : NetState) : Bool := n.socketExists && n.isConnected

/-- The 7x7 block scanned by `loadNearbyChunks`:
`for (x = cam.x - R; x <= cam.x + R; x++) for (y = cam.y - R; y <= cam.y + R; y++)`
with R = `chunkLoadRadius` = 3, in source iteration order. -/
def chunkSquare (c : ChunkCoord) : List ChunkCoord :=
  ((List.range 7).map (fun (i : ℕ) => c.1 - chunkLoadRadius + (i : ℤ))).flatMap
    (fun x => ((List.range 7).map (fun (j : ℕ) => c.2 - chunkLoadRadius + (j : ℤ))).map
      (fun y => (x, y)))

/-- The `neededChunks` array of `loadNearbyChunks`: coordinates of the
square whose key is not in `loadedChunks`. -/
def neededChunks (cam : ChunkCoord) (loaded : List (ChunkCoord × ChunkData)) :
    List ChunkCoord :=
  (chunkSquare cam).filter (fun c => (mapLookup c loaded).isNone)

/-- Chebyshev distance `Math.max(Math.abs(dx), Math.abs(dy))`. -/
def chebDist (a b : ChunkCoord) : ℤ := max |a.1 - b.1| |a.2 - b.2|

/-- JS `unloadDistantChunks(centerChunkX, centerChunkY)`: collect keys of
loaded chunks whose stored coordinate is beyond `chunkLoadRadius + 1`
Chebyshev distance from the centre, then delete each key from both
`loadedChunks` and `fogOfWar`. -/
def unloadDistantChunks (centerChunkX centerChunkY : ℤ) (s : GameState) : GameState :=
  let chunksToUnload := (s.loadedChunks.filter
      (fun e => chunkLoadRadius + 1 < max |e.2.x - centerChunkX| |e.2.y - centerChunkY|)).map
      Prod.fst
  { s with
    loadedChunks := chunksToUnload.foldl (fun m k => mapDelete k m) s.loadedChunks,
    fogOfWar := chunksToUnload.foldl (fun m k => mapDelete k m) s.fogOfWar }

/-- JS `loadNearbyChunks()`: one recompute pass.  The camera-centre world
coordinate (`camera.x + canvas.width / (2 * camera.scale)` and its y
analogue, DOM-derived) is taken as the input `centerX`, `centerY`.  Emits
the single batched `request_chunks` message when `neededChunks.length > 0`
and the socket gate is open, then unloads distant chunks.  The returned
list is the list of emitted fetch requests of the pass. -/
def loadNearbyChunks (n : NetState) (centerX centerY : ℚ) (s : GameState) :
    List (List ChunkCoord) × GameState :=
  let cam := getChunkCoords centerX centerY
  let needed := neededChunks cam s.loadedChunks
  let reqs := if 0 < needed.length ∧ n.socketExists = true ∧ n.isConnected = true
    then [needed] else []
  (reqs, unloadDistantChunks cam.1 cam.2 s)

/-- JS `initializeChunkFogOfWar(chunkX, chunkY)`: a fresh canvas filled
with `rgba(0, 0, 0, 0.9)`, i.e. constant opacity 9/10. -/
def initializeChunkFogOfWar (chunkX chunkY : ℤ) (s : GameState) : GameState :=
  { s with fogOfWar := mapInsert (chunkX, chunkY) (fun _ => (9 : ℚ)/10) s.fogOfWar }

/-- JS `handleChunksData(data)`: insert each delivered chunk under its key,
then initialise its fog mask only when one does not already exist (the
source initialises at `chunk.x, chunk.y`, the coordinate stored in the
payload). -/
def handleChunksData (chunks : List (ChunkCoord × ChunkData)) (s : GameState) : GameState :=
  chunks.foldl (fun st e =>
    let st1 := { st with loadedChunks := mapInsert e.1 e.2 st.loadedChunks }
    if (mapLookup e.1 st1.fogOfWar).isNone
      then initializeChunkFogOfWar e.2.x e.2.y st1
      else st1) s

/-- JS `easeOutQuad(t) = 1 - (1 - t) * (1 - t)`. -/
def easeOutQuad (t : ℚ) : ℚ := 1 - (1 - t) * (1 - t)

/-- Alpha of the erase gradient at squared distance `distSq` from its
centre, for a gradient of the given radius: canvas stops 0 -> 9/10,
0.7 -> 1/2, 1 -> 0, evaluated on the squared distance (see the header
comment; values agree with the canvas gradient at and beyond every stop). -/
def gradAlphaSq (radius distSq : ℚ) : ℚ :=
  if radius ≤ 0 then 0
  else if 1 ≤ distSq / (radius * radius) then 0
  else if distSq / (radius * radius) ≤ 49/100 then
    9/10 - (40/49) * (distSq / (radius * radius))
  else 1/2 - (50/51) * (distSq / (radius * radius) - 49/100)

/-- One destination-out radial-gradient erase on a mask, centred at the
chunk-local point `(cx, cy)`: destination alpha is multiplied by
(1 - source alpha) at every pixel. -/
def eraseAt (cx cy radius : ℚ) (m : FogMask) : FogMask :=
  fun p => m p * (1 - gradAlphaSq radius (((p.1 : ℚ) - cx)^2 + ((p.2 : ℚ) - cy)^2))

/-- JS `revealArea(x, y, radius)`: drop silently when no fog mask is
resident for the owning chunk, else push a fresh animation (radius 0,
duration 800 ms, stamped with the owning chunk coordinate). -/
def revealArea (x y radius : ℚ) (now : ℤ) (s : GameState) : GameState :=
  let chunkCoords := getChunkCoords x y
  match mapLookup chunkCoords s.fogOfWar with
  | none => s
  | some _ =>
    { s with revealAnimations := s.revealAnimations ++
        [{ x := x, y := y, radius := 0, targetRadius := radius,
           startTime := now, duration := 800,
           chunkX := chunkCoords.1, chunkY := chunkCoords.2 }] }

/-- `Math.min(elapsed / anim.duration, 1)` of the tick. -/
def animProgress (now : ℤ) (a : RevealAnim) : ℚ :=
  min (((now - a.startTime : ℤ) : ℚ) / ((a.duration : ℤ) : ℚ)) 1

/-- The fog write of one animation during a tick: requires a resident mask
and a resident chunk for the owning key and a positive radius (the JS
`isFinite` guards are identically true over the rationals), then erases at
the chunk-local centre `(anim.x - chunk.worldX, anim.y - chunk.worldY)`. -/
def stepAnimFog (a : RevealAnim) (radius : ℚ) (s : GameState) : GameState :=
  match mapLookup (a.chunkX, a.chunkY) s.fogOfWar,
        mapLookup (a.chunkX, a.chunkY) s.loadedChunks with
  | some m, some c =>
    if 0 < radius then
      { s with fogOfWar :=
          (mapInsert (a.chunkX, a.chunkY)
            (eraseAt (a.x - c.worldX) (a.y - c.worldY) radius m) s.fogOfWar) }
    else s
  | some _, none => s
  | none, _ => s

/-- The body of the `revealAnimations.filter` of `updateRevealAnimations`,
run sequentially over the list: each animation recomputes its radius from
eased progress, performs its fog write, and survives iff progress < 1. -/
def runAnims (now : ℤ) : List RevealAnim → GameState → GameState × List RevealAnim
  | [], s => (s, [])
  | a :: rest, s =>
    let radius := a.targetRadius * easeOutQuad (animProgress now a)
    let s1 := stepAnimFog a radius s
    let out := runAnims now rest s1
    (out.1, if animProgress now a < 1 then { a with radius := radius } :: out.2 else out.2)

/-- JS `updateRevealAnimations()` at clock time `now`. -/
def updateRevealAnimations (now : ℤ) (s : GameState) : GameState :=
  let out := runAnims now s.revealAnimations s
  { out.1 with revealAnimations := out.2 }

/-- A reveal run to completion: register the operation at time `t`, then
tick at `t + 800` (its full duration), after which its progress is 1, its
erase is applied at the full target radius and it is removed.  Any longer
tick schedule applies additional partial-radius erase passes on the way;
the single completion tick is the minimal run. -/
def runReveal (x y r : ℚ) (t : ℤ) (s : GameState) : GameState :=
  updateRevealAnimations (t + 800) (revealArea x y r t s)

/-- The net fog effect of `runReveal` on a state with no pending
animations, as a pure function of the cache and the fog table (proved
equal to `runReveal` in `runReveal_eq` below). -/
def revealEffect (x y r : ℚ) (loaded : List (ChunkCoord × ChunkData))
    (fog : List (ChunkCoord × FogMask)) : List (ChunkCoord × FogMask) :=
  let cc := getChunkCoords x y
  match mapLookup cc fog, mapLookup cc loaded with
  | some m, some c =>
    if 0 < r then mapInsert cc (eraseAt (x - c.worldX) (y - c.worldY) r m) fog else fog
  | some _, none => fog
  | none, _ => fog

/-- JS `restoreFogOfWarFromServer(fogOfWarData)`: for each persisted blob,
create the mask fresh when absent, then `clearRect` + `drawImage`, i.e.
replace the mask contents wholesale with the decoded image alpha.  The
decoded image of each entry is modelled as the mask it denotes; the JS key
parse `chunkKey.split(",").map(Number)` is the inverse of the key encoding
and is the identity here. -/
def restoreFogOfWarFromServer (data : List (ChunkCoord × FogMask)) (s : GameState) :
    GameState :=
  data.foldl (fun st e =>
    let st1 := if (mapLookup e.1 st.fogOfWar).isNone
      then initializeChunkFogOfWar e.1.1 e.1.2 st
      else st
    match mapLookup e.1 st1.fogOfWar with
    | some _ => { st1 with fogOfWar := mapInsert e.1 e.2 st1.fogOfWar }
    | none => st1) s

/-- Opacity of the fog mask of chunk `k` at pixel `p`, when resident. -/
def fogAt (s : GameState) (k : ChunkCoord) (p : ℤ × ℤ) : Option ℚ :=
  (mapLookup k s.fogOfWar).map (fun m => m p)

/-- JS `this.maxReconnectAttempts = 5`. -/
def maxReconnectAttempts : ℕ := 5

/-- `this.reconnectAttempts`, the only state of the backoff machine. -/
structure ReconnectState where
  reconnectAttempts : ℕ
deriving DecidableEq

/-- Result of one `attemptReconnect()` call: the updated counter, the
delay of the scheduled `setTimeout` retry when one is scheduled, and
whether the terminal unable-to-reconnect notice was shown instead. -/
structure ReconnectOutcome where
  next : ReconnectState
  scheduledDelay : Option ℕ
  failureNotice : Bool
deriving DecidableEq

/-- JS `attemptReconnect()`: below the maximum, increment the counter and
schedule a retry after `Math.min(1000 * Math.pow(2, attempts), 10000)` ms;
at the maximum, show the terminal notice and schedule nothing. -/
def attemptReconnect (s : ReconnectState) : ReconnectOutcome :=
  if s.reconnectAttempts < maxReconnectAttempts then
    let n := s.reconnectAttempts + 1
    { next := { reconnectAttempts := n },
      scheduledDelay := some (min (1000 * 2 ^ n) 10000),
      failureNotice := false }
  else
    { next := s, scheduledDelay := none, failureNotice := true }

/-- The trace of `k` consecutive connection failures, each one invoking
`attemptReconnect`: per failure, the scheduled delay (if any) and whether
the terminal notice fired. -/
def reconnectTrace : ℕ → ReconnectState → List (Option ℕ × Bool)
  | 0, _ => []
  | k + 1, s =>
    let o := attemptReconnect s
    (o.scheduledDelay, o.failureNotice) :: reconnectTrace k o.next

/-- The four resource counters of the session state. -/
structure Resources where
  food : ℚ
  wood : ℚ
  iron : ℚ
  gold : ℚ
deriving DecidableEq

/-- A scout record (fields beyond these are irrelevant to every claim). -/
structure Scout where
  id : ℕ
  x : ℚ
  y : ℚ
  exploring : Bool
deriving DecidableEq

/-- The local-player session subset touched by `handlePlayerUpdated`. -/
structure SessionState where
  resources : Resources
  population : ℕ
  scouts : List Scout
deriving DecidableEq

/-- Payload of a `player_updated` event.  `none` models an absent (or
null) field; a present object or array is always truthy in JS, a present
number is truthy iff nonzero. -/
structure PlayerUpdatedEvent where
  playerId : String
  resources : Option Resources
  population : Option ℕ
  scouts : Option (List Scout)
deriving DecidableEq

/-- JS `handlePlayerUpdated(data)`: when the event names the local
connection id, each of `resources`, `population`, `scouts` is assigned
wholesale behind a JS truthiness guard (`if (resources) ...`); events for
any other id fall through unchanged. -/
def handlePlayerUpdated (localId : String) (d : PlayerUpdatedEvent) (s : SessionState) :
    SessionState :=
  if d.playerId = localId then
    let s1 := match d.resources with
      | some r => { s with resources := r }
      | none => s
    let s2 := match d.population with
      | some p => if p ≠ 0 then { s1 with population := p } else s1
      | none => s1
    match d.scouts with
      | some sc => { s2 with scouts := sc }
      | none => s2
  else s

/-- Outbound messages the client can emit. -/
inductive OutboundMsg where
  | updateCamera : OutboundMsg
  | placeBuilding : String → ℚ → ℚ → OutboundMsg
  | sendScout : ℚ → ℚ → OutboundMsg
  | requestChunks : List ChunkCoord → OutboundMsg
deriving DecidableEq

/-- JS `tryPlaceBuilding`: when the gate is closed, show the
not-connected notice and send nothing; else emit `place_building`.
Returns (emitted messages, shown notices). -/
def tryPlaceBuilding (n : NetState) (buildingType : String) (x y : ℚ) :
    List OutboundMsg × List String :=
  if !n.socketExists || !n.isConnected then ([], ["Not connected to server!"])
  else ([OutboundMsg.placeBuilding buildingType x y], [])

/-- JS `sendScoutToExplore`: emit `send_scout` when the gate is open, else
show the not-connected notice. -/
def sendScoutToExplore (n : NetState) (x y : ℚ) : List OutboundMsg × List String :=
  if n.socketExists && n.isConnected then ([OutboundMsg.sendScout x y], [])
  else ([], ["Not connected to server!"])

/-- The send inside `throttledCameraUpdate` (the 100 ms leading-edge
throttle wrapper is timing glue around this body): emit `update_camera`
when the gate is open, else do nothing at all — no notice is shown. -/
def throttledCameraUpdateSend (n : NetState) : List OutboundMsg × List String :=
  if n.socketExists && n.isConnected then ([OutboundMsg.updateCamera], []) else ([], [])

/-- The empty game state. -/
def emptyGame : GameState :=
  { loadedChunks := [], fogOfWar := [], revealAnimations := [] }

/-- A freshly initialised mask: constant opacity 9/10. -/
def freshMask : FogMask := fun _ => (9 : ℚ)/10

/-- The chunk at coordinate (0, 0). -/
def chunk00 : ChunkData := { x := 0, y := 0, worldX := 0, worldY := 0 }

/-- A state with chunk (0, 0) resident together with its fresh mask. -/
def fogGame : GameState :=
  { loadedChunks := [((0, 0), chunk00)],
    fogOfWar := [((0, 0), freshMask)],
    revealAnimations := [] }

/-- A state with two resident chunks, one inside and one outside the
unload distance from chunk (0, 0). -/
def cacheGame : GameState :=
  { loadedChunks := [((0, 0), chunk00),
                     ((9, 9), { x := 9, y := 9, worldX := 4608, worldY := 4608 })],
    fogOfWar := [((0, 0), freshMask), ((9, 9), freshMask)],
    revealAnimations := [] }

/-- A state whose only mask has been fully cleared (opacity 0 everywhere),
with no terrain chunk resident. -/
def clearedGame : GameState :=
  { loadedChunks := [], fogOfWar := [((0, 0), fun _ => 0)], revealAnimations := [] }

/-- Backoff trace: from a fresh failure the five scheduled delays are
2000, 4000, 8000, 10000, 10000 ms and the sixth consecutive failure
schedules nothing and shows the terminal notice; at the maximum the
counter no longer changes and no retry is ever scheduled again. -/
theorem reconnect_backoff_spec :
    reconnectTrace 6 { reconnectAttempts := 0 } =
      [(some 2000, false), (some 4000, false), (some 8000, false),
       (some 10000, false), (some 10000, false), (none, true)] ∧
    (attemptReconnect { reconnectAttempts := 5 }).scheduledDelay = none ∧
    (attemptReconnect { reconnectAttempts := 5 }).failureNotice = true ∧
    (attemptReconnect { reconnectAttempts := 5 }).next = { reconnectAttempts := 5 } := by
  decide

/-- Lookup after inserting the same key. -/
theorem mapLookup_insert_self {α β : Type} [DecidableEq α] (k : α) (v : β)
    (m : List (α × β)) : mapLookup k (mapInsert k v m) = some v := by
  induction m with
  | nil => simp [mapInsert, mapLookup]
  | cons e rest ih =>
    by_cases h : e.1 = k <;> simp [mapInsert, mapLookup, h, ih]

/-- Lookup after inserting a different key. -/
theorem mapLookup_insert_ne {α β : Type} [DecidableEq α] {k' k : α} (v : β)
    (m : List (α × β)) (h : k' ≠ k) :
    mapLookup k (mapInsert k' v m) = mapLookup k m := by
  induction m with
  | nil => simp [mapInsert, mapLookup, h]
  | cons e rest ih =>
    simp only [mapInsert]
    by_cases he : e.1 = k'
    · rw [if_pos he]
      have hek : e.1 ≠ k := by rw [he]; exact h
      simp only [mapLookup, if_neg h, if_neg hek]
    · rw [if_neg he]
      by_cases hek : e.1 = k <;> simp only [mapLookup, if_pos, if_neg, hek, ih]

/-- Inserting twice at the same key keeps only the outer value. -/
theorem mapInsert_insert_self {α β : Type} [DecidableEq α] (k : α) (v w : β)
    (m : List (α × β)) : mapInsert k v (mapInsert k w m) = mapInsert k v m := by
  induction m with
  | nil => simp [mapInsert]
  | cons e rest ih =>
    by_cases h : e.1 = k <;> simp [mapInsert, h, ih]

/-- Lookup after a delete. -/
theorem mapLookup_mapDelete {α β : Type} [DecidableEq α] (k k' : α)
    (m : List (α × β)) :
    mapLookup k (mapDelete k' m) = if k = k' then none else mapLookup k m := by
  induction m with
  | nil => simp [mapDelete, mapLookup]
  | cons e rest ih =>
    by_cases hk : k = k'
    · subst hk
      simp only [mapDelete, List.filter_cons] at *
      by_cases he : e.1 = k
      · simpa [he] using ih
      · simpa [he, mapLookup] using ih
    · have hk' : ¬k' = k := fun hh => hk hh.symm
      simp only [mapDelete, List.filter_cons] at *
      by_cases he : e.1 = k'
      · have hek : ¬e.1 = k := by rw [he]; exact hk'
        simpa [he, hek, hk, hk', mapLookup] using ih
      · by_cases hek : e.1 = k
        · simp [he, hek, hk, hk', mapLookup]
        · simpa [he, hek, hk, mapLookup] using ih

/-- Membership after a delete. -/
theorem mem_mapDelete {α β : Type} [DecidableEq α] (k : α) (m : List (α × β))
    (e : α × β) : e ∈ mapDelete k m ↔ e ∈ m ∧ e.1 ≠ k := by
  simp [mapDelete, List.mem_filter]

/-- Membership after a fold of deletes. -/
theorem mem_foldl_mapDelete {α β : Type} [DecidableEq α] (ks : List α) :
    ∀ (m : List (α × β)) (e : α × β),
      e ∈ ks.foldl (fun m k => mapDelete k m) m ↔ e ∈ m ∧ e.1 ∉ ks := by
  induction ks with
  | nil => simp
  | cons k ks ih =>
    intro m e
    simp only [List.foldl_cons, ih, mem_mapDelete, List.mem_cons]
    tauto

/-- Lookup after a fold of deletes. -/
theorem mapLookup_foldl_mapDelete {α β : Type} [DecidableEq α] (ks : List α) :
    ∀ (m : List (α × β)) (k : α),
      mapLookup k (ks.foldl (fun m k => mapDelete k m) m) =
        if k ∈ ks then none else mapLookup k m := by
  induction ks with
  | nil => simp
  | cons k0 ks ih =>
    intro m k
    by_cases hk : k = k0
    · subst hk
      by_cases hmem : k ∈ ks <;>
        simp [ih, hmem, mapLookup_mapDelete]
    · by_cases hmem : k ∈ ks <;>
        simp [ih, hmem, mapLookup_mapDelete, hk]

/-- A lookup succeeds exactly when some entry has the key. -/
theorem mapLookup_isSome_iff {α β : Type} [DecidableEq α] (k : α)
    (m : List (α × β)) : (mapLookup k m).isSome ↔ ∃ e ∈ m, e.1 = k := by
  induction m with
  | nil => simp [mapLookup]
  | cons e rest ih =>
    by_cases h : e.1 = k <;> simp [mapLookup, h, ih]

/-- A lookup fails exactly when no entry has the key. -/
theorem mapLookup_eq_none_iff {α β : Type} [DecidableEq α] (k : α)
    (m : List (α × β)) : mapLookup k m = none ↔ ∀ e ∈ m, e.1 ≠ k := by
  induction m with
  | nil => simp [mapLookup]
  | cons e rest ih =>
    by_cases h : e.1 = k <;> simp [mapLookup, h, ih]

/-- A successful lookup produces a member of the list. -/
theorem mapLookup_eq_some_mem {α β : Type} [DecidableEq α] {k : α} {v : β}
    {m : List (α × β)} (h : mapLookup k m = some v) : (k, v) ∈ m := by
  induction m with
  | nil => simp [mapLookup] at h
  | cons e rest ih =>
    simp only [mapLookup] at h
    by_cases he : e.1 = k
    · rw [if_pos he] at h
      injection h with h2
      refine List.mem_cons.mpr (Or.inl ?_)
      cases e
      simp_all
    · rw [if_neg he] at h
      exact List.mem_cons_of_mem _ (ih h)

/-- With pairwise-distinct keys the key determines the whole entry. -/
theorem keys_nodup_entry_eq {α β : Type} [DecidableEq α]
    {m : List (α × β)} (h : (m.map Prod.fst).Nodup) {e e' : α × β}
    (he : e ∈ m) (he' : e' ∈ m) (hk : e.1 = e'.1) : e = e' := by
  induction m with
  | nil => cases he
  | cons a rest ih =>
    simp only [List.map_cons, List.nodup_cons] at h
    rcases List.mem_cons.mp he with he1 | he1
    · rcases List.mem_cons.mp he' with he2 | he2
      · rw [he1, he2]
      · exfalso
        apply h.1
        have ha : a.1 = e'.1 := by rw [← he1, hk]
        rw [ha]
        exact List.mem_map_of_mem Prod.fst he2
    · rcases List.mem_cons.mp he' with he2 | he2
      · exfalso
        apply h.1
        have ha : a.1 = e.1 := by rw [← he2, ← hk]
        rw [ha]
        exact List.mem_map_of_mem Prod.fst he1
      · exact ih h.2 he1 he2

/-- With pairwise-distinct keys every member is found by lookup. -/
theorem mapLookup_of_mem_nodup {α β : Type} [DecidableEq α]
    {m : List (α × β)} (h : (m.map Prod.fst).Nodup) {e : α × β}
    (he : e ∈ m) : mapLookup e.1 m = some e.2 := by
  induction m with
  | nil => cases he
  | cons a rest ih =>
    simp only [List.map_cons, List.nodup_cons] at h
    rcases List.mem_cons.mp he with he1 | he1
    · rw [he1]
      simp [mapLookup]
    · have hne : a.1 ≠ e.1 := by
        intro hcontra
        apply h.1
        rw [hcontra]
        exact List.mem_map_of_mem Prod.fst he1
      simp [mapLookup, hne, ih h.2 he1]

/-- Membership of the scanned 7x7 block is Chebyshev distance at most 3. -/
theorem mem_chunkSquare (c c' : ChunkCoord) :
    c' ∈ chunkSquare c ↔ chebDist c' c ≤ chunkLoadRadius := by
  constructor
  · intro h
    rw [chunkSquare] at h
    obtain ⟨x, hx, hmem⟩ := List.mem_flatMap.mp h
    obtain ⟨i, hi, hieq⟩ := List.mem_map.mp hx
    obtain ⟨y, hy, hyeq⟩ := List.mem_map.mp hmem
    obtain ⟨j, hj, hjeq⟩ := List.mem_map.mp hy
    rw [List.mem_range] at hi hj
    simp only [chunkLoadRadius] at hieq hjeq
    rw [← hyeq]
    simp only [chebDist, chunkLoadRadius, max_le_iff, abs_le]
    constructor <;> constructor <;> omega
  · intro h
    simp only [chebDist, chunkLoadRadius, max_le_iff, abs_le] at h
    rw [chunkSquare]
    refine List.mem_flatMap.mpr ⟨c'.1, ?_, ?_⟩
    · refine List.mem_map.mpr ⟨(c'.1 - c.1 + 3).toNat, List.mem_range.mpr ?_, ?_⟩
      · omega
      · simp only [chunkLoadRadius]
        omega
    · refine List.mem_map.mpr ⟨c'.2, ?_, ?_⟩
      · refine List.mem_map.mpr ⟨(c'.2 - c.2 + 3).toNat, List.mem_range.mpr ?_, ?_⟩
        · omega
        · simp only [chunkLoadRadius]
          omega
      · rfl

/-- The erase-gradient alpha is nonnegative. -/
theorem gradAlphaSq_nonneg (radius distSq : ℚ) (h : 0 ≤ distSq) :
    0 ≤ gradAlphaSq radius distSq := by
  unfold gradAlphaSq
  split_ifs with h1 h2 h3
  · exact le_refl 0
  · exact le_refl 0
  · have hr : 0 < radius := lt_of_not_le h1
    have hq : 0 ≤ distSq / (radius * radius) := div_nonneg h (by positivity)
    linarith
  · have hr : 0 < radius := lt_of_not_le h1
    have hq2 : distSq / (radius * radius) < 1 := lt_of_not_le h2
    linarith

/-- The erase-gradient alpha is at most one. -/
theorem gradAlphaSq_le_one (radius distSq : ℚ) (h : 0 ≤ distSq) :
    gradAlphaSq radius distSq ≤ 1 := by
  unfold gradAlphaSq
  split_ifs with h1 h2 h3
  · norm_num
  · norm_num
  · have hr : 0 < radius := lt_of_not_le h1
    have hq : 0 ≤ distSq / (radius * radius) := div_nonneg h (by positivity)
    linarith
  · have hq3 : 49/100 < distSq / (radius * radius) := lt_of_not_le h3
    linarith

/-- One erase pass keeps a nonnegative pixel nonnegative and never
increases it. -/
theorem eraseAt_pixel_bounds (cx cy radius : ℚ) (m : FogMask) (p : ℤ × ℤ)
    (h : 0 ≤ m p) :
    0 ≤ eraseAt cx cy radius m p ∧ eraseAt cx cy radius m p ≤ m p := by
  have hd : (0 : ℚ) ≤ ((p.1 : ℚ) - cx)^2 + ((p.2 : ℚ) - cy)^2 := by positivity
  have h1 := gradAlphaSq_nonneg radius _ hd
  have h2 := gradAlphaSq_le_one radius _ hd
  unfold eraseAt
  constructor
  · exact mul_nonneg h (by linarith)
  · calc m p * (1 - gradAlphaSq radius (((p.1 : ℚ) - cx)^2 + ((p.2 : ℚ) - cy)^2))
        ≤ m p * 1 := mul_le_mul_of_nonneg_left (by linarith) h
    _ = m p := mul_one _

/-- The per-animation fog write leaves the cache untouched. -/
theorem stepAnimFog_loadedChunks (a : RevealAnim) (r : ℚ) (s : GameState) :
    (stepAnimFog a r s).loadedChunks = s.loadedChunks := by
  cases hm : mapLookup (a.chunkX, a.chunkY) s.fogOfWar with
  | none => simp [stepAnimFog, hm]
  | some m =>
    cases hc : mapLookup (a.chunkX, a.chunkY) s.loadedChunks with
    | none => simp [stepAnimFog, hm, hc]
    | some c =>
      simp only [stepAnimFog, hm, hc]
      split_ifs <;> rfl

/-- The per-animation fog write leaves the animation list untouched. -/
theorem stepAnimFog_revealAnimations (a : RevealAnim) (r : ℚ) (s : GameState) :
    (stepAnimFog a r s).revealAnimations = s.revealAnimations := by
  cases hm : mapLookup (a.chunkX, a.chunkY) s.fogOfWar with
  | none => simp [stepAnimFog, hm]
  | some m =>
    cases hc : mapLookup (a.chunkX, a.chunkY) s.loadedChunks with
    | none => simp [stepAnimFog, hm, hc]
    | some c =>
      simp only [stepAnimFog, hm, hc]
      split_ifs <;> rfl

/-- The per-animation fog write touches no key but the owning chunk key. -/
theorem stepAnimFog_lookup_ne (a : RevealAnim) (r : ℚ) (s : GameState)
    (k : ChunkCoord) (h : ((a.chunkX, a.chunkY) : ChunkCoord) ≠ k) :
    mapLookup k (stepAnimFog a r s).fogOfWar = mapLookup k s.fogOfWar := by
  cases hm : mapLookup (a.chunkX, a.chunkY) s.fogOfWar with
  | none => simp [stepAnimFog, hm]
  | some m =>
    cases hc : mapLookup (a.chunkX, a.chunkY) s.loadedChunks with
    | none => simp [stepAnimFog, hm, hc]
    | some c =>
      simp only [stepAnimFog, hm, hc]
      split_ifs with hr
      · exact mapLookup_insert_ne _ _ h
      · rfl

/-- The per-animation fog write never increases a nonnegative pixel. -/
theorem stepAnimFog_pixel_mono (a : RevealAnim) (r : ℚ) (s : GameState)
    (k : ChunkCoord) (p : ℤ × ℤ) (v : ℚ)
    (hv : fogAt s k p = some v) (hnn : 0 ≤ v) :
    ∃ w, fogAt (stepAnimFog a r s) k p = some w ∧ 0 ≤ w ∧ w ≤ v := by
  by_cases hk : ((a.chunkX, a.chunkY) : ChunkCoord) = k
  · cases hm : mapLookup (a.chunkX, a.chunkY) s.fogOfWar with
    | none =>
      rw [hk] at hm
      simp [fogAt, hm] at hv
    | some m =>
      have hmp : m p = v := by
        rw [hk] at hm
        simp [fogAt, hm] at hv
        exact hv
      cases hc : mapLookup (a.chunkX, a.chunkY) s.loadedChunks with
      | none =>
        refine ⟨v, ?_, hnn, le_refl v⟩
        simp only [stepAnimFog, hm, hc]
        exact hv
      | some c =>
        simp only [stepAnimFog, hm, hc]
        split_ifs with hr
        · have hb := eraseAt_pixel_bounds (a.x - c.worldX) (a.y - c.worldY) r m p
            (hmp ▸ hnn)
          refine ⟨eraseAt (a.x - c.worldX) (a.y - c.worldY) r m p, ?_, hb.1,
            hmp ▸ hb.2⟩
          simp only [fogAt]
          rw [hk, mapLookup_insert_self]
          rfl
        · exact ⟨v, hv, hnn, le_refl v⟩
  · refine ⟨v, ?_, hnn, le_refl v⟩
    rw [← hv]
    simp only [fogAt, stepAnimFog_lookup_ne a r s k hk]

/-- Running a tick over an animation list touches no key outside the
owning chunk keys of the list. -/
theorem runAnims_lookup_ne (now : ℤ) :
    ∀ (l : List RevealAnim) (s : GameState) (k : ChunkCoord),
      (∀ a ∈ l, ((a.chunkX, a.chunkY) : ChunkCoord) ≠ k) →
      mapLookup k (runAnims now l s).1.fogOfWar = mapLookup k s.fogOfWar := by
  intro l
  induction l with
  | nil => intro s k _; rfl
  | cons a rest ih =>
    intro s k h
    have h1 := h a (List.mem_cons_self a rest)
    have h2 : ∀ b ∈ rest, ((b.chunkX, b.chunkY) : ChunkCoord) ≠ k :=
      fun b hb => h b (List.mem_cons_of_mem a hb)
    simp only [runAnims]
    rw [ih _ k h2, stepAnimFog_lookup_ne _ _ _ _ h1]

/-- Running a tick over an animation list never increases a nonnegative
pixel of any resident mask. -/
theorem runAnims_pixel_mono (now : ℤ) :
    ∀ (l : List RevealAnim) (s : GameState) (k : ChunkCoord) (p : ℤ × ℤ) (v : ℚ),
      fogAt s k p = some v → 0 ≤ v →
      ∃ w, fogAt (runAnims now l s).1 k p = some w ∧ 0 ≤ w ∧ w ≤ v := by
  intro l
  induction l with
  | nil => intro s k p v hv hnn; exact ⟨v, hv, hnn, le_refl v⟩
  | cons a rest ih =>
    intro s k p v hv hnn
    obtain ⟨w1, hw1, hw1nn, hw1le⟩ :=
      stepAnimFog_pixel_mono a (a.targetRadius * easeOutQuad (animProgress now a)) s k p v hv hnn
    obtain ⟨w2, hw2, hw2nn, hw2le⟩ := ih _ k p w1 hw1 hw1nn
    exact ⟨w2, by simpa [runAnims] using hw2, hw2nn, le_trans hw2le hw1le⟩

/-- `revealArea` with no resident mask for the owning chunk returns the
state unchanged. -/
theorem revealArea_skip_no_mask (x y r : ℚ) (t : ℤ) (s : GameState)
    (h : mapLookup (getChunkCoords x y) s.fogOfWar = none) :
    revealArea x y r t s = s := by
  simp [revealArea, h]

/-- C9: calling `revealArea(x, y, radius)` when no fog mask is resident
for the chunk containing the point is a complete no-op: the state is
returned unchanged, so no reveal operation is registered, no mask is
created and no mask contents change. -/
theorem revealArea_unresident_noop (x y r : ℚ) (t : ℤ) (s : GameState)
    (h : mapLookup (getChunkCoords x y) s.fogOfWar = none) :
    revealArea x y r t s = s := by
  simp [revealArea, h]

/-- Witness for `revealArea_unresident_noop` at a concrete input. -/
theorem revealArea_unresident_noop_witness :
    mapLookup (getChunkCoords 0 0) emptyGame.fogOfWar = none ∧
    revealArea 0 0 5 0 emptyGame = emptyGame :=
  ⟨rfl, revealArea_unresident_noop 0 0 5 0 emptyGame rfl⟩

/-- C10: fog erasure is confined to the owning chunk of each reveal:
`revealArea` changes no fog mask and no cache entry at all; every
animation it registers is stamped with the chunk containing its origin
point; and a tick leaves the mask of every key that owns none of the
pending animations unchanged — in particular a radius reaching past the
chunk boundary never writes into a neighbouring mask. -/
theorem reveal_owning_chunk_frame :
    (∀ (x y r : ℚ) (t : ℤ) (s : GameState),
      (revealArea x y r t s).fogOfWar = s.fogOfWar ∧
      (revealArea x y r t s).loadedChunks = s.loadedChunks) ∧
    (∀ (x y r : ℚ) (t : ℤ) (s : GameState) (a : RevealAnim),
      a ∈ (revealArea x y r t s).revealAnimations →
      a ∈ s.revealAnimations ∨
        ((a.chunkX, a.chunkY) = getChunkCoords x y ∧ a.x = x ∧ a.y = y)) ∧
    (∀ (now : ℤ) (s : GameState) (k : ChunkCoord),
      (∀ a ∈ s.revealAnimations, ((a.chunkX, a.chunkY) : ChunkCoord) ≠ k) →
      mapLookup k (updateRevealAnimations now s).fogOfWar =
        mapLookup k s.fogOfWar) := by
  refine ⟨?_, ?_, ?_⟩
  · intro x y r t s
    cases hm : mapLookup (getChunkCoords x y) s.fogOfWar with
    | none => simp [revealArea, hm]
    | some m => simp [revealArea, hm]
  · intro x y r t s a ha
    cases hm : mapLookup (getChunkCoords x y) s.fogOfWar with
    | none =>
      rw [revealArea_skip_no_mask x y r t s hm] at ha
      exact Or.inl ha
    | some m =>
      simp only [revealArea, hm, List.mem_append, List.mem_singleton] at ha
      rcases ha with ha | ha
      · exact Or.inl ha
      · right
        rw [ha]
        exact ⟨rfl, rfl, rfl⟩
  · intro now s k h
    exact runAnims_lookup_ne now s.revealAnimations s k h

/-- Witness for `reveal_owning_chunk_frame` at concrete inputs. -/
theorem reveal_owning_chunk_frame_witness :
    ((revealArea 100 100 50 0 fogGame).fogOfWar = fogGame.fogOfWar ∧
     (revealArea 100 100 50 0 fogGame).loadedChunks = fogGame.loadedChunks) ∧
    mapLookup ((5 : ℤ), (5 : ℤ)) (updateRevealAnimations 0 fogGame).fogOfWar =
      mapLookup ((5 : ℤ), (5 : ℤ)) fogGame.fogOfWar :=
  ⟨reveal_owning_chunk_frame.1 100 100 50 0 fogGame,
   reveal_owning_chunk_frame.2.2 0 fogGame (5, 5)
     (by intro a ha; simp [fogGame] at ha)⟩

/-- C7: `getChunkCoords` is floor division by the chunk extent on each
axis independently (characterised by `512 * c <= w < 512 * (c + 1)`, which
rules out truncation toward zero, as the concrete negative input checks);
`getChunkCoords 0 0 = (0, 0)`; and a recompute pass over an empty cache
with the camera centre at world (0, 0) and an open socket gate emits one
batched request of exactly the 49 coordinates of the block {-3..3}x{-3..3}. -/
theorem worldToChunk_floor_spec :
    (∀ x y : ℚ,
      chunkSize * (((getChunkCoords x y).1 : ℤ) : ℚ) ≤ x ∧
      x < chunkSize * ((((getChunkCoords x y).1 : ℤ) : ℚ) + 1) ∧
      chunkSize * (((getChunkCoords x y).2 : ℤ) : ℚ) ≤ y ∧
      y < chunkSize * ((((getChunkCoords x y).2 : ℤ) : ℚ) + 1)) ∧
    getChunkCoords 0 0 = ((0 : ℤ), (0 : ℤ)) ∧
    getChunkCoords (-1) (-1) = ((-1 : ℤ), (-1 : ℤ)) ∧
    (loadNearbyChunks { socketExists := true, isConnected := true } 0 0 emptyGame).1 =
      [neededChunks ((0 : ℤ), (0 : ℤ)) []] ∧
    (neededChunks ((0 : ℤ), (0 : ℤ)) []).length = 49 ∧
    (∀ cc : ChunkCoord, cc ∈ neededChunks ((0 : ℤ), (0 : ℤ)) [] ↔
      (-3 ≤ cc.1 ∧ cc.1 ≤ 3 ∧ -3 ≤ cc.2 ∧ cc.2 ≤ 3)) := by
  have hpos : (0 : ℚ) < chunkSize := by norm_num [chunkSize]
  have hcc0 : getChunkCoords 0 0 = ((0 : ℤ), (0 : ℤ)) := by
    simp only [getChunkCoords, chunkSize]
    norm_num
  have hccneg : getChunkCoords (-1) (-1) = ((-1 : ℤ), (-1 : ℤ)) := by
    simp only [getChunkCoords, chunkSize]
    norm_num
  refine ⟨?_, hcc0, hccneg, ?_, by decide, ?_⟩
  case refine_2 =>
    simp only [loadNearbyChunks, emptyGame, hcc0]
    decide
  · intro x y
    simp only [getChunkCoords]
    have h1 : ((⌊x / chunkSize⌋ : ℤ) : ℚ) ≤ x / chunkSize := Int.floor_le _
    have h2 : x / chunkSize < ((⌊x / chunkSize⌋ : ℤ) : ℚ) + 1 := Int.lt_floor_add_one _
    have h3 : ((⌊y / chunkSize⌋ : ℤ) : ℚ) ≤ y / chunkSize := Int.floor_le _
    have h4 : y / chunkSize < ((⌊y / chunkSize⌋ : ℤ) : ℚ) + 1 := Int.lt_floor_add_one _
    have hxeq : chunkSize * (x / chunkSize) = x := by field_simp
    have hyeq : chunkSize * (y / chunkSize) = y := by field_simp
    refine ⟨?_, ?_, ?_, ?_⟩
    · have := mul_le_mul_of_nonneg_left h1 hpos.le
      linarith
    · have := (div_lt_iff₀ hpos).mp h2
      rw [mul_comm]
      exact this
    · have := mul_le_mul_of_nonneg_left h3 hpos.le
      linarith
    · have := (div_lt_iff₀ hpos).mp h4
      rw [mul_comm]
      exact this
  · intro cc
    have hsquare : neededChunks ((0 : ℤ), (0 : ℤ)) [] = chunkSquare ((0 : ℤ), (0 : ℤ)) := by
      decide
    rw [hsquare, mem_chunkSquare]
    simp only [chebDist, chunkLoadRadius, max_le_iff, abs_le, sub_zero]
    omega

/-- Witness instantiating the quantified parts of
`worldToChunk_floor_spec` at concrete inputs. -/
theorem worldToChunk_floor_witness :
    (chunkSize * (((getChunkCoords (-1) 700).1 : ℤ) : ℚ) ≤ -1 ∧
      (-1 : ℚ) < chunkSize * ((((getChunkCoords (-1) 700).1 : ℤ) : ℚ) + 1) ∧
      chunkSize * (((getChunkCoords (-1) 700).2 : ℤ) : ℚ) ≤ 700 ∧
      (700 : ℚ) < chunkSize * ((((getChunkCoords (-1) 700).2 : ℤ) : ℚ) + 1)) ∧
    (((2 : ℤ), (-3 : ℤ)) ∈ neededChunks ((0 : ℤ), (0 : ℤ)) [] ↔
      (-3 ≤ (2 : ℤ) ∧ (2 : ℤ) ≤ 3 ∧ -3 ≤ (-3 : ℤ) ∧ (-3 : ℤ) ≤ 3)) :=
  ⟨worldToChunk_floor_spec.1 (-1) 700,
   worldToChunk_floor_spec.2.2.2.2.2 (2, -3)⟩

/-- C4 counterexample: with a socket present but the connection down, the
camera update is dropped (nothing transmitted) but NO user-facing notice
is shown either — refuting the claim that every dropped outbound request
shows a local notice. -/
theorem camera_update_silent_drop_counterexample :
    (throttledCameraUpdateSend { socketExists := true, isConnected := false }).1 = [] ∧
    (throttledCameraUpdateSend { socketExists := true, isConnected := false }).2 = [] :=
  ⟨rfl, rfl⟩

/-- C4 as amended: every outbound request is transmitted iff the gate
`socket && isConnected` is open, and is dropped without queueing
otherwise; but only place-building and send-scout show the not-connected
notice — the camera update and the chunk request are dropped silently. -/
theorem outbound_gating_spec :
    ∀ (n : NetState) (bt : String) (x y cx cy : ℚ) (s : GameState),
      ((tryPlaceBuilding n bt x y).1 ≠ [] ↔ sendGate n = true) ∧
      ((tryPlaceBuilding n bt x y).2 ≠ [] ↔ sendGate n = false) ∧
      ((sendScoutToExplore n x y).1 ≠ [] ↔ sendGate n = true) ∧
      ((sendScoutToExplore n x y).2 ≠ [] ↔ sendGate n = false) ∧
      ((throttledCameraUpdateSend n).1 ≠ [] ↔ sendGate n = true) ∧
      (throttledCameraUpdateSend n).2 = [] ∧
      (sendGate n = false → (loadNearbyChunks n cx cy s).1 = []) := by
  intro n bt x y cx cy s
  obtain ⟨sock, conn⟩ := n
  cases sock <;> cases conn <;>
    simp [tryPlaceBuilding, sendScoutToExplore, throttledCameraUpdateSend,
      sendGate, loadNearbyChunks]

/-- Witness instantiating `outbound_gating_spec` on both sides of the gate. -/
theorem outbound_gating_witness :
    (loadNearbyChunks { socketExists := true, isConnected := false } 0 0 emptyGame).1 = [] ∧
    ((tryPlaceBuilding { socketExists := true, isConnected := true } "farm" 0 0).1 ≠ [] ↔
      sendGate { socketExists := true, isConnected := true } = true) :=
  ⟨(outbound_gating_spec { socketExists := true, isConnected := false }
      "farm" 0 0 0 0 emptyGame).2.2.2.2.2.2 rfl,
   (outbound_gating_spec { socketExists := true, isConnected := true }
      "farm" 0 0 0 0 emptyGame).1⟩

/-- C5 counterexample: a `player_updated` event for the local player whose
payload sets population to 0 leaves the local population at its old value
5 instead of replacing it (the JS guard `if (population)` is falsy at 0) —
refuting wholesale replacement by the payload values. -/
theorem player_update_population_zero_counterexample :
    (handlePlayerUpdated "me"
      { playerId := "me", resources := none, population := some 0, scouts := none }
      { resources := { food := 100, wood := 50, iron := 25, gold := 10 },
        population := 5, scouts := [] }).population = 5 ∧ (5 : ℕ) ≠ 0 := by
  constructor
  · rfl
  · decide

/-- C5 as amended: an event for the local id replaces each of resources,
population and scouts wholesale exactly when the payload field is truthy
(present for objects and arrays, present and nonzero for the population
number; population 0 and absent fields leave the old value); an event for
any other id leaves the session state entirely unchanged. -/
theorem player_update_truthy_spec :
    ∀ (localId : String) (d : PlayerUpdatedEvent) (s : SessionState),
      (d.playerId ≠ localId → handlePlayerUpdated localId d s = s) ∧
      (d.playerId = localId →
        (∀ r, d.resources = some r →
          (handlePlayerUpdated localId d s).resources = r) ∧
        (d.resources = none →
          (handlePlayerUpdated localId d s).resources = s.resources) ∧
        (∀ p, d.population = some p → p ≠ 0 →
          (handlePlayerUpdated localId d s).population = p) ∧
        ((d.population = some 0 ∨ d.population = none) →
          (handlePlayerUpdated localId d s).population = s.population) ∧
        (∀ sc, d.scouts = some sc →
          (handlePlayerUpdated localId d s).scouts = sc) ∧
        (d.scouts = none →
          (handlePlayerUpdated localId d s).scouts = s.scouts)) := by
  intro localId d s
  obtain ⟨pid, res, pop, sct⟩ := d
  constructor
  · intro hne
    simp only [handlePlayerUpdated]
    rw [if_neg hne]
  · intro heq
    replace heq : pid = localId := heq
    subst heq
    refine ⟨?_, ?_, ?_, ?_, ?_, ?_⟩
    · rintro r rfl
      rcases pop with _ | p <;> rcases sct with _ | sc <;>
        simp [handlePlayerUpdated] <;> split_ifs <;> rfl
    · rintro rfl
      rcases pop with _ | p <;> rcases sct with _ | sc <;>
        simp [handlePlayerUpdated] <;> split_ifs <;> rfl
    · rintro p rfl hp
      rcases res with _ | r <;> rcases sct with _ | sc <;>
        simp [handlePlayerUpdated, hp]
    · rintro (rfl | rfl) <;>
        rcases res with _ | r <;> rcases sct with _ | sc <;>
          simp [handlePlayerUpdated]
    · rintro sc rfl
      rcases res with _ | r <;> rcases pop with _ | p <;>
        simp [handlePlayerUpdated]
    · rintro rfl
      rcases res with _ | r <;> rcases pop with _ | p <;>
        simp [handlePlayerUpdated] <;> split_ifs <;> rfl

/-- Witness instantiating `player_update_truthy_spec` for a local-id event
with truthy fields and for a foreign-id event. -/
theorem player_update_truthy_witness :
    ((handlePlayerUpdated "me"
        { playerId := "me", resources := none, population := some 7, scouts := none }
        { resources := { food := 1, wood := 2, iron := 3, gold := 4 },
          population := 5, scouts := [] }).population = 7) ∧
    (handlePlayerUpdated "me"
        { playerId := "other", resources := none, population := some 7, scouts := none }
        { resources := { food := 1, wood := 2, iron := 3, gold := 4 },
          population := 5, scouts := [] } =
      { resources := { food := 1, wood := 2, iron := 3, gold := 4 },
        population := 5, scouts := [] }) :=
  ⟨((player_update_truthy_spec "me"
      { playerId := "me", resources := none, population := some 7, scouts := none }
      { resources := { food := 1, wood := 2, iron := 3, gold := 4 },
        population := 5, scouts := [] }).2 rfl).2.2.1 7 rfl (by decide),
   (player_update_truthy_spec "me"
      { playerId := "other", resources := none, population := some 7, scouts := none }
      { resources := { food := 1, wood := 2, iron := 3, gold := 4 },
        population := 5, scouts := [] }).1 (by decide)⟩

/-- Membership of the `chunksToUnload` key list of `unloadDistantChunks`,
translated to the key by the key/payload coordinate agreement. -/
theorem mem_chunksToUnload (cx cy : ℤ) (s : GameState)
    (hcons : ∀ e ∈ s.loadedChunks, e.1 = (e.2.x, e.2.y)) (k : ChunkCoord) :
    k ∈ (s.loadedChunks.filter
        (fun e => chunkLoadRadius + 1 < max |e.2.x - cx| |e.2.y - cy|)).map Prod.fst ↔
      ((∃ e ∈ s.loadedChunks, e.1 = k) ∧ chunkLoadRadius + 1 < chebDist k (cx, cy)) := by
  constructor
  · intro h
    obtain ⟨e, he, hek⟩ := List.mem_map.mp h
    obtain ⟨he1, he2⟩ := List.mem_filter.mp he
    rw [decide_eq_true_eq] at he2
    refine ⟨⟨e, he1, hek⟩, ?_⟩
    rw [← hek, hcons e he1]
    exact he2
  · rintro ⟨⟨e, he, hek⟩, hd⟩
    refine List.mem_map.mpr ⟨e, List.mem_filter.mpr ⟨he, ?_⟩, hek⟩
    rw [decide_eq_true_eq]
    rw [← hek, hcons e he] at hd
    exact hd

/-- Cache membership after `unloadDistantChunks`: exactly the old entries
within Chebyshev distance `chunkLoadRadius + 1` of the centre survive. -/
theorem unload_loaded_mem (cx cy : ℤ) (s : GameState)
    (hcons : ∀ e ∈ s.loadedChunks, e.1 = (e.2.x, e.2.y)) :
    ∀ e, e ∈ (unloadDistantChunks cx cy s).loadedChunks ↔
      (e ∈ s.loadedChunks ∧ chebDist e.1 (cx, cy) ≤ chunkLoadRadius + 1) := by
  intro e
  simp only [unloadDistantChunks]
  rw [mem_foldl_mapDelete]
  constructor
  · rintro ⟨he, hnot⟩
    refine ⟨he, ?_⟩
    by_contra hlt
    exact hnot ((mem_chunksToUnload cx cy s hcons e.1).mpr
      ⟨⟨e, he, rfl⟩, not_le.mp hlt⟩)
  · rintro ⟨he, hle⟩
    refine ⟨he, ?_⟩
    intro hmem
    obtain ⟨_, hd⟩ := (mem_chunksToUnload cx cy s hcons e.1).mp hmem
    exact absurd hd (not_lt.mpr hle)

/-- Lookup in the cache after `unloadDistantChunks`. -/
theorem unload_loaded_lookup (cx cy : ℤ) (s : GameState)
    (hcons : ∀ e ∈ s.loadedChunks, e.1 = (e.2.x, e.2.y)) (k : ChunkCoord) :
    (((∃ e ∈ s.loadedChunks, e.1 = k) ∧ chunkLoadRadius + 1 < chebDist k (cx, cy)) →
      mapLookup k (unloadDistantChunks cx cy s).loadedChunks = none) ∧
    (¬((∃ e ∈ s.loadedChunks, e.1 = k) ∧ chunkLoadRadius + 1 < chebDist k (cx, cy)) →
      mapLookup k (unloadDistantChunks cx cy s).loadedChunks =
        mapLookup k s.loadedChunks) := by
  constructor
  · intro hcond
    have hk := (mem_chunksToUnload cx cy s hcons k).mpr hcond
    simp only [unloadDistantChunks]
    rw [mapLookup_foldl_mapDelete, if_pos hk]
  · intro hncond
    have hk : k ∉ (s.loadedChunks.filter
        (fun e => chunkLoadRadius + 1 < max |e.2.x - cx| |e.2.y - cy|)).map Prod.fst :=
      fun hm => hncond ((mem_chunksToUnload cx cy s hcons k).mp hm)
    simp only [unloadDistantChunks]
    rw [mapLookup_foldl_mapDelete, if_neg hk]

/-- Fog-table lookup after `unloadDistantChunks`: the masks of evicted
keys are deleted, every other mask is untouched. -/
theorem unload_fog_lookup (cx cy : ℤ) (s : GameState)
    (hcons : ∀ e ∈ s.loadedChunks, e.1 = (e.2.x, e.2.y)) (k : ChunkCoord) :
    (((∃ e ∈ s.loadedChunks, e.1 = k) ∧ chunkLoadRadius + 1 < chebDist k (cx, cy)) →
      mapLookup k (unloadDistantChunks cx cy s).fogOfWar = none) ∧
    (¬((∃ e ∈ s.loadedChunks, e.1 = k) ∧ chunkLoadRadius + 1 < chebDist k (cx, cy)) →
      mapLookup k (unloadDistantChunks cx cy s).fogOfWar = mapLookup k s.fogOfWar) := by
  constructor
  · intro hcond
    have hk := (mem_chunksToUnload cx cy s hcons k).mpr hcond
    simp only [unloadDistantChunks]
    rw [mapLookup_foldl_mapDelete, if_pos hk]
  · intro hncond
    have hk : k ∉ (s.loadedChunks.filter
        (fun e => chunkLoadRadius + 1 < max |e.2.x - cx| |e.2.y - cy|)).map Prod.fst :=
      fun hm => hncond ((mem_chunksToUnload cx cy s hcons k).mp hm)
    simp only [unloadDistantChunks]
    rw [mapLookup_foldl_mapDelete, if_neg hk]

/-- C1: one recompute pass (`loadNearbyChunks` followed by its
`unloadDistantChunks` call), with the socket gate open and the cache keys
agreeing with the stored chunk coordinates: at most one batched fetch is
emitted; none at all exactly when every coordinate within Chebyshev
distance 3 of the camera chunk is already resident; the single batch
holds exactly the non-resident coordinates within distance 3; the
surviving cache entries are exactly the old ones within distance 4, so
each evicted key loses both its chunk and its fog mask while every other
fog mask is untouched; and no chunk within distance 3 (in particular none
the pass would request) is evicted by the same pass. -/
theorem chunk_streaming_recompute_spec
    (centerX centerY : ℚ) (n : NetState) (s : GameState)
    (hsock : n.socketExists = true) (hconn : n.isConnected = true)
    (hcons : ∀ e ∈ s.loadedChunks, e.1 = (e.2.x, e.2.y)) :
    (loadNearbyChunks n centerX centerY s).1.length ≤ 1 ∧
    ((loadNearbyChunks n centerX centerY s).1 = [] ↔
      ∀ c : ChunkCoord, chebDist c (getChunkCoords centerX centerY) ≤ chunkLoadRadius →
        (mapLookup c s.loadedChunks).isSome) ∧
    (∀ b ∈ (loadNearbyChunks n centerX centerY s).1, ∀ c : ChunkCoord,
      c ∈ b ↔ (chebDist c (getChunkCoords centerX centerY) ≤ chunkLoadRadius ∧
        mapLookup c s.loadedChunks = none)) ∧
    (∀ e, e ∈ (loadNearbyChunks n centerX centerY s).2.loadedChunks ↔
      (e ∈ s.loadedChunks ∧
        chebDist e.1 (getChunkCoords centerX centerY) ≤ chunkLoadRadius + 1)) ∧
    (∀ k : ChunkCoord,
      (((∃ e ∈ s.loadedChunks, e.1 = k) ∧
          chunkLoadRadius + 1 < chebDist k (getChunkCoords centerX centerY)) →
        mapLookup k (loadNearbyChunks n centerX centerY s).2.loadedChunks = none ∧
        mapLookup k (loadNearbyChunks n centerX centerY s).2.fogOfWar = none) ∧
      (¬((∃ e ∈ s.loadedChunks, e.1 = k) ∧
          chunkLoadRadius + 1 < chebDist k (getChunkCoords centerX centerY)) →
        mapLookup k (loadNearbyChunks n centerX centerY s).2.fogOfWar =
          mapLookup k s.fogOfWar)) ∧
    (∀ e ∈ s.loadedChunks,
      chebDist e.1 (getChunkCoords centerX centerY) ≤ chunkLoadRadius →
      e ∈ (loadNearbyChunks n centerX centerY s).2.loadedChunks) := by
  have hsnd : (loadNearbyChunks n centerX centerY s).2 =
      unloadDistantChunks (getChunkCoords centerX centerY).1
        (getChunkCoords centerX centerY).2 s := rfl
  have hneed : ∀ c : ChunkCoord,
      c ∈ neededChunks (getChunkCoords centerX centerY) s.loadedChunks ↔
        (chebDist c (getChunkCoords centerX centerY) ≤ chunkLoadRadius ∧
          mapLookup c s.loadedChunks = none) := by
    intro c
    simp only [neededChunks, List.mem_filter, mem_chunkSquare,
      Option.isNone_iff_eq_none]
  have hreq : (loadNearbyChunks n centerX centerY s).1 =
      if 0 < (neededChunks (getChunkCoords centerX centerY) s.loadedChunks).length
      then [neededChunks (getChunkCoords centerX centerY) s.loadedChunks] else [] := by
    simp only [loadNearbyChunks, hsock, hconn, and_true, eq_self_iff_true]
  refine ⟨?_, ?_, ?_, ?_, ?_, ?_⟩
  · rw [hreq]
    split_ifs <;> simp
  · rw [hreq]
    by_cases hlen :
        0 < (neededChunks (getChunkCoords centerX centerY) s.loadedChunks).length
    · rw [if_pos hlen]
      constructor
      · intro h
        simp at h
      · intro hall
        exfalso
        obtain ⟨c, hc⟩ := List.exists_mem_of_length_pos hlen
        obtain ⟨hd, hnone⟩ := (hneed c).mp hc
        have := hall c hd
        rw [hnone] at this
        simp at this
    · rw [if_neg hlen]
      have hnil : neededChunks (getChunkCoords centerX centerY) s.loadedChunks = [] :=
        List.length_eq_zero.mp (by omega)
      constructor
      · intro _ c hd
        by_contra hns
        have hnone : mapLookup c s.loadedChunks = none := by
          cases hopt : mapLookup c s.loadedChunks with
          | none => rfl
          | some v => exact absurd (by simp [hopt]) hns
        have hmem := (hneed c).mpr ⟨hd, hnone⟩
        rw [hnil] at hmem
        cases hmem
      · intro _
        rfl
  · intro b hb c
    rw [hreq] at hb
    split_ifs at hb with hlen
    · rw [List.mem_singleton] at hb
      rw [hb]
      exact hneed c
    · cases hb
  · intro e
    rw [hsnd]
    exact unload_loaded_mem _ _ s hcons e
  · intro k
    rw [hsnd]
    exact ⟨fun hc => ⟨(unload_loaded_lookup _ _ s hcons k).1 hc,
        (unload_fog_lookup _ _ s hcons k).1 hc⟩,
      fun hc => (unload_fog_lookup _ _ s hcons k).2 hc⟩
  · intro e he hd
    rw [hsnd, unload_loaded_mem _ _ s hcons e]
    refine ⟨he, ?_⟩
    simp only [Prod.mk.eta]
    simp only [chunkLoadRadius] at hd ⊢
    omega

/-- Witness applying `chunk_streaming_recompute_spec` to a concrete state:
the chunk at (0, 0) survives the pass around camera chunk (0, 0). -/
theorem chunk_streaming_recompute_witness :
    (((0 : ℤ), (0 : ℤ)), chunk00) ∈
        (loadNearbyChunks { socketExists := true, isConnected := true }
          0 0 cacheGame).2.loadedChunks ↔
      ((((0 : ℤ), (0 : ℤ)), chunk00) ∈ cacheGame.loadedChunks ∧
        chebDist ((0 : ℤ), (0 : ℤ)) (getChunkCoords 0 0) ≤ chunkLoadRadius + 1) :=
  (chunk_streaming_recompute_spec 0 0 { socketExists := true, isConnected := true }
    cacheGame rfl rfl (by decide)).2.2.2.1 (((0 : ℤ), (0 : ℤ)), chunk00)

/-- A reveal run to completion on a state with no pending animations is
exactly the pure fog effect `revealEffect`: the registered animation ticks
once at full duration (progress 1, radius equal to the target), erases
when mask and chunk are resident and the radius is positive, and is then
removed. -/
theorem runReveal_eq (x y r : ℚ) (t : ℤ) (s : GameState)
    (h : s.revealAnimations = []) :
    runReveal x y r t s =
      { s with fogOfWar := revealEffect x y r s.loadedChunks s.fogOfWar } := by
  obtain ⟨lc, fog, anims⟩ := s
  replace h : anims = [] := h
  subst h
  cases hm : mapLookup (getChunkCoords x y) fog with
  | none =>
    simp only [runReveal]
    rw [revealArea_skip_no_mask x y r t _ hm]
    simp only [updateRevealAnimations, runAnims, revealEffect, hm]
  | some m =>
    have hm' : mapLookup ((getChunkCoords x y).1, (getChunkCoords x y).2) fog = some m := by
      rw [Prod.mk.eta]
      exact hm
    have hprog : animProgress (t + 800)
        { x := x, y := y, radius := 0, targetRadius := r, startTime := t,
          duration := 800, chunkX := (getChunkCoords x y).1,
          chunkY := (getChunkCoords x y).2 } = 1 := by
      simp only [animProgress]
      have h800 : t + 800 - t = (800 : ℤ) := by ring
      rw [h800]
      norm_num
    have hease : easeOutQuad 1 = 1 := by norm_num [easeOutQuad]
    simp only [runReveal, revealArea, hm, List.nil_append, updateRevealAnimations,
      runAnims, hprog, hease, mul_one]
    rw [if_neg (lt_irrefl (1 : ℚ))]
    cases hc : mapLookup (getChunkCoords x y) lc with
    | none =>
      have hc' : mapLookup ((getChunkCoords x y).1, (getChunkCoords x y).2) lc = none := by
        rw [Prod.mk.eta]
        exact hc
      simp only [stepAnimFog, hm', hc', revealEffect, hm, hc]
    | some c =>
      have hc' : mapLookup ((getChunkCoords x y).1, (getChunkCoords x y).2) lc = some c := by
        rw [Prod.mk.eta]
        exact hc
      simp only [stepAnimFog, hm', hc', revealEffect, hm, hc]
      split_ifs with hr
      · simp only [Prod.mk.eta]
      · rfl

/-- A completed reveal touches no key but its owning chunk key. -/
theorem revealEffect_lookup_ne (x y r : ℚ) (loaded : List (ChunkCoord × ChunkData))
    (fog : List (ChunkCoord × FogMask)) (k : ChunkCoord)
    (hk : k ≠ getChunkCoords x y) :
    mapLookup k (revealEffect x y r loaded fog) = mapLookup k fog := by
  cases hm : mapLookup (getChunkCoords x y) fog with
  | none => simp [revealEffect, hm]
  | some m =>
    cases hc : mapLookup (getChunkCoords x y) loaded with
    | none => simp [revealEffect, hm, hc]
    | some c =>
      simp only [revealEffect, hm, hc]
      split_ifs with hr
      · exact mapLookup_insert_ne _ _ (Ne.symm hk)
      · rfl

/-- The value of a completed reveal at its own key depends only on the
value of the input fog table at that key. -/
theorem revealEffect_lookup_self_congr (x y r : ℚ)
    (loaded : List (ChunkCoord × ChunkData))
    (g g' : List (ChunkCoord × FogMask))
    (h : mapLookup (getChunkCoords x y) g = mapLookup (getChunkCoords x y) g') :
    mapLookup (getChunkCoords x y) (revealEffect x y r loaded g) =
      mapLookup (getChunkCoords x y) (revealEffect x y r loaded g') := by
  cases hm : mapLookup (getChunkCoords x y) g with
  | none =>
    have hm' : mapLookup (getChunkCoords x y) g' = none := by rw [← h, hm]
    simp [revealEffect, hm, hm']
  | some m =>
    have hm' : mapLookup (getChunkCoords x y) g' = some m := by rw [← h, hm]
    cases hc : mapLookup (getChunkCoords x y) loaded with
    | none => simp [revealEffect, hm, hm', hc]
    | some c =>
      simp only [revealEffect, hm, hm', hc]
      split_ifs with hr
      · rw [mapLookup_insert_self, mapLookup_insert_self]
      · rw [hm, hm']

/-- Two completed reveals commute pointwise on the fog table, whether they
target the same chunk or different chunks. -/
theorem revealEffect_comm (xa ya ra xb yb rb : ℚ)
    (loaded : List (ChunkCoord × ChunkData))
    (fog : List (ChunkCoord × FogMask)) (k : ChunkCoord) :
    mapLookup k (revealEffect xa ya ra loaded (revealEffect xb yb rb loaded fog)) =
      mapLookup k (revealEffect xb yb rb loaded (revealEffect xa ya ra loaded fog)) := by
  by_cases hab : getChunkCoords xa ya = getChunkCoords xb yb
  · cases hm : mapLookup (getChunkCoords xb yb) fog with
    | none =>
      have eb : revealEffect xb yb rb loaded fog = fog := by simp [revealEffect, hm]
      have ea : revealEffect xa ya ra loaded fog = fog := by simp [revealEffect, hab, hm]
      rw [eb, ea, eb]
    | some m =>
      cases hc : mapLookup (getChunkCoords xb yb) loaded with
      | none =>
        have eb : revealEffect xb yb rb loaded fog = fog := by
          simp [revealEffect, hm, hc]
        have ea : revealEffect xa ya ra loaded fog = fog := by
          simp [revealEffect, hab, hm, hc]
        rw [eb, ea, eb]
      | some c =>
        by_cases hra : 0 < ra <;> by_cases hrb : 0 < rb
        · simp only [revealEffect, hab, hm, hc, hrb, if_true, hra,
            mapLookup_insert_self, mapInsert_insert_self]
          by_cases hk : getChunkCoords xb yb = k
          · rw [← hk, mapLookup_insert_self, mapLookup_insert_self]
            congr 1
            funext p
            simp only [eraseAt]
            ring
          · rw [mapLookup_insert_ne _ _ hk, mapLookup_insert_ne _ _ hk]
        · simp only [revealEffect, hab, hm, hc, hrb, hra, if_true, if_false,
            mapLookup_insert_self, mapInsert_insert_self]
        · simp only [revealEffect, hab, hm, hc, hrb, hra, if_true, if_false,
            mapLookup_insert_self, mapInsert_insert_self]
        · simp only [revealEffect, hab, hm, hc, hrb, hra, if_false]
  · by_cases hka : k = getChunkCoords xa ya
    · rw [hka]
      have hne : getChunkCoords xa ya ≠ getChunkCoords xb yb := hab
      have h1 : mapLookup (getChunkCoords xa ya)
            (revealEffect xb yb rb loaded (revealEffect xa ya ra loaded fog)) =
          mapLookup (getChunkCoords xa ya) (revealEffect xa ya ra loaded fog) :=
        revealEffect_lookup_ne xb yb rb loaded _ _ hne
      have h2 : mapLookup (getChunkCoords xa ya)
            (revealEffect xa ya ra loaded (revealEffect xb yb rb loaded fog)) =
          mapLookup (getChunkCoords xa ya) (revealEffect xa ya ra loaded fog) :=
        revealEffect_lookup_self_congr xa ya ra loaded _ _
          (revealEffect_lookup_ne xb yb rb loaded fog _ hne)
      rw [h1, h2]
    · by_cases hkb : k = getChunkCoords xb yb
      · rw [hkb]
        have hne : getChunkCoords xb yb ≠ getChunkCoords xa ya := by
          rw [← hkb]
          exact hka
        have h1 : mapLookup (getChunkCoords xb yb)
              (revealEffect xa ya ra loaded (revealEffect xb yb rb loaded fog)) =
            mapLookup (getChunkCoords xb yb) (revealEffect xb yb rb loaded fog) :=
          revealEffect_lookup_ne xa ya ra loaded _ _ hne
        have h2 : mapLookup (getChunkCoords xb yb)
              (revealEffect xb yb rb loaded (revealEffect xa ya ra loaded fog)) =
            mapLookup (getChunkCoords xb yb) (revealEffect xb yb rb loaded fog) :=
          revealEffect_lookup_self_congr xb yb rb loaded _ _
            (revealEffect_lookup_ne xa ya ra loaded fog _ hne)
        rw [h1, h2]
      · rw [revealEffect_lookup_ne xa ya ra loaded _ k hka,
          revealEffect_lookup_ne xb yb rb loaded fog k hkb,
          revealEffect_lookup_ne xb yb rb loaded _ k hkb,
          revealEffect_lookup_ne xa ya ra loaded fog k hka]

/-- C8: running reveal A to completion and then reveal B to completion
yields, for every chunk key, exactly the same fog mask as running B and
then A — fog erasure is commutative, for reveals over the same chunk and
over different chunks alike (in the exact rational model there is no
rounding to take modulo of). -/
theorem reveal_commutative_spec (xa ya ra xb yb rb : ℚ) (ta tb : ℤ)
    (s : GameState) (h : s.revealAnimations = []) :
    ∀ k : ChunkCoord,
      mapLookup k (runReveal xb yb rb tb (runReveal xa ya ra ta s)).fogOfWar =
        mapLookup k (runReveal xa ya ra ta (runReveal xb yb rb tb s)).fogOfWar := by
  intro k
  have ha := runReveal_eq xa ya ra ta s h
  have hb := runReveal_eq xb yb rb tb s h
  have ha2 := runReveal_eq xb yb rb tb (runReveal xa ya ra ta s)
    (by rw [ha]; exact h)
  have hb2 := runReveal_eq xa ya ra ta (runReveal xb yb rb tb s)
    (by rw [hb]; exact h)
  rw [ha2, hb2, ha, hb]
  exact revealEffect_comm xb yb rb xa ya ra s.loadedChunks s.fogOfWar k

/-- Witness applying `reveal_commutative_spec` to two concrete reveals on
a concrete resident mask. -/
theorem reveal_commutative_witness :
    mapLookup ((0 : ℤ), (0 : ℤ))
        (runReveal 200 50 30 1000 (runReveal 100 100 50 0 fogGame)).fogOfWar =
      mapLookup ((0 : ℤ), (0 : ℤ))
        (runReveal 100 100 50 0 (runReveal 200 50 30 1000 fogGame)).fogOfWar :=
  reveal_commutative_spec 100 100 50 200 50 30 0 1000 fogGame rfl ((0 : ℤ), (0 : ℤ))

/-- C2 counterexample: running the same reveal (origin (100, 100), radius
50, over the resident chunk (0, 0) with a fresh 9/10 mask) to completion
once leaves the centre pixel at 9/10 * (1 - 9/10) = 9/100, while running
it to completion twice leaves it at 9/1000 — the destination-out erase is
multiplicative, so the masks differ and the double application is NOT
equal to the single one. -/
theorem reveal_idempotence_counterexample :
    fogAt (runReveal 100 100 50 0 fogGame) ((0 : ℤ), (0 : ℤ))
        ((100 : ℤ), (100 : ℤ)) = some ((9 : ℚ)/100) ∧
    fogAt (runReveal 100 100 50 800 (runReveal 100 100 50 0 fogGame))
        ((0 : ℤ), (0 : ℤ)) ((100 : ℤ), (100 : ℤ)) = some ((9 : ℚ)/1000) ∧
    ((9 : ℚ)/1000) ≠ ((9 : ℚ)/100) := by
  have hcc : getChunkCoords 100 100 = ((0 : ℤ), (0 : ℤ)) := by
    simp only [getChunkCoords, chunkSize]
    norm_num
  have hlf : mapLookup ((0 : ℤ), (0 : ℤ)) fogGame.fogOfWar = some freshMask := rfl
  have hlc : mapLookup ((0 : ℤ), (0 : ℤ)) fogGame.loadedChunks = some chunk00 := rfl
  have heff1 : revealEffect 100 100 50 fogGame.loadedChunks fogGame.fogOfWar =
      mapInsert ((0 : ℤ), (0 : ℤ))
        (eraseAt (100 - chunk00.worldX) (100 - chunk00.worldY) 50 freshMask)
        fogGame.fogOfWar := by
    simp only [revealEffect, hcc, hlf, hlc]
    norm_num
  have heff2 : revealEffect 100 100 50 fogGame.loadedChunks
      (mapInsert ((0 : ℤ), (0 : ℤ))
        (eraseAt (100 - chunk00.worldX) (100 - chunk00.worldY) 50 freshMask)
        fogGame.fogOfWar) =
      mapInsert ((0 : ℤ), (0 : ℤ))
        (eraseAt (100 - chunk00.worldX) (100 - chunk00.worldY) 50
          (eraseAt (100 - chunk00.worldX) (100 - chunk00.worldY) 50 freshMask))
        fogGame.fogOfWar := by
    simp only [revealEffect, hcc, mapLookup_insert_self, hlc]
    norm_num [mapInsert_insert_self]
  have h1 := runReveal_eq 100 100 50 0 fogGame rfl
  have hanims : (runReveal 100 100 50 0 fogGame).revealAnimations = [] := by
    rw [h1]
    rfl
  have h2 := runReveal_eq 100 100 50 800 (runReveal 100 100 50 0 fogGame) hanims
  refine ⟨?_, ?_, by norm_num⟩
  · rw [h1]
    simp only [fogAt]
    rw [heff1, mapLookup_insert_self]
    norm_num [eraseAt, gradAlphaSq, freshMask, chunk00]
  · rw [h2, h1]
    simp only [fogAt]
    rw [heff1, heff2, mapLookup_insert_self]
    norm_num [eraseAt, gradAlphaSq, freshMask, chunk00]

/-- C2 as amended: for a reveal over a resident nonnegative mask, running
the same `revealArea(x, y, r)` to completion twice yields at every pixel
an opacity at most that of running it once — erasure is monotone and the
second application can only erase further (strictly, at pixels inside the
radius, as the counterexample shows), not the bitwise-equal mask the
original claim states. -/
theorem reveal_twice_monotone_spec (x y r : ℚ) (t1 t2 : ℤ) (s : GameState)
    (h : s.revealAnimations = [])
    (hnn : ∀ m, mapLookup (getChunkCoords x y) s.fogOfWar = some m →
      ∀ p : ℤ × ℤ, 0 ≤ m p) :
    ∀ (k : ChunkCoord) (p : ℤ × ℤ) (v1 v2 : ℚ),
      fogAt (runReveal x y r t1 s) k p = some v1 →
      fogAt (runReveal x y r t2 (runReveal x y r t1 s)) k p = some v2 →
      v2 ≤ v1 := by
  intro k p v1 v2 h1 h2
  have e1 := runReveal_eq x y r t1 s h
  have hanims : (runReveal x y r t1 s).revealAnimations = [] := by
    rw [e1]
    exact h
  have e2 := runReveal_eq x y r t2 (runReveal x y r t1 s) hanims
  rw [e1] at h1
  rw [e2, e1] at h2
  simp only [fogAt] at h1 h2
  by_cases hk : k = getChunkCoords x y
  · subst hk
    cases hm : mapLookup (getChunkCoords x y) s.fogOfWar with
    | none =>
      have heq : revealEffect x y r s.loadedChunks s.fogOfWar = s.fogOfWar := by
        simp [revealEffect, hm]
      rw [heq] at h1 h2
      rw [heq] at h2
      rw [hm] at h1
      simp at h1
    | some m =>
      have hmnn := hnn m hm
      cases hc : mapLookup (getChunkCoords x y) s.loadedChunks with
      | none =>
        have heq : revealEffect x y r s.loadedChunks s.fogOfWar = s.fogOfWar := by
          simp [revealEffect, hm, hc]
        rw [heq] at h1 h2
        rw [heq] at h2
        rw [h1] at h2
        exact le_of_eq (Option.some.inj h2).symm
      | some c =>
        by_cases hr : 0 < r
        · have heff : revealEffect x y r s.loadedChunks s.fogOfWar =
              mapInsert (getChunkCoords x y)
                (eraseAt (x - c.worldX) (y - c.worldY) r m) s.fogOfWar := by
            simp [revealEffect, hm, hc, hr]
          have heff2 : revealEffect x y r s.loadedChunks
              (mapInsert (getChunkCoords x y)
                (eraseAt (x - c.worldX) (y - c.worldY) r m) s.fogOfWar) =
              mapInsert (getChunkCoords x y)
                (eraseAt (x - c.worldX) (y - c.worldY) r
                  (eraseAt (x - c.worldX) (y - c.worldY) r m)) s.fogOfWar := by
            simp [revealEffect, mapLookup_insert_self, hc, hr, mapInsert_insert_self]
          rw [heff, mapLookup_insert_self] at h1
          rw [heff, heff2, mapLookup_insert_self] at h2
          simp only [Option.map_some'] at h1 h2
          have hv1 : eraseAt (x - c.worldX) (y - c.worldY) r m p = v1 :=
            Option.some.inj h1
          have hv2 : eraseAt (x - c.worldX) (y - c.worldY) r
              (eraseAt (x - c.worldX) (y - c.worldY) r m) p = v2 :=
            Option.some.inj h2
          have hbase := eraseAt_pixel_bounds (x - c.worldX) (y - c.worldY) r m p (hmnn p)
          have hv1nn : 0 ≤ v1 := hv1 ▸ hbase.1
          have hd : (0 : ℚ) ≤ ((p.1 : ℚ) - (x - c.worldX))^2 +
              ((p.2 : ℚ) - (y - c.worldY))^2 := by positivity
          have hg1 := gradAlphaSq_nonneg r _ hd
          have hg2 := gradAlphaSq_le_one r _ hd
          have hstep : v2 = v1 * (1 - gradAlphaSq r
              (((p.1 : ℚ) - (x - c.worldX))^2 + ((p.2 : ℚ) - (y - c.worldY))^2)) := by
            rw [← hv1, ← hv2]
            rfl
          nlinarith [mul_nonneg hv1nn hg1]
        · have heq : revealEffect x y r s.loadedChunks s.fogOfWar = s.fogOfWar := by
            simp [revealEffect, hm, hc, hr]
          rw [heq] at h1 h2
          rw [heq] at h2
          rw [h1] at h2
          exact le_of_eq (Option.some.inj h2).symm
  · have hne := revealEffect_lookup_ne x y r s.loadedChunks s.fogOfWar k hk
    have hne2 := revealEffect_lookup_ne x y r s.loadedChunks
      (revealEffect x y r s.loadedChunks s.fogOfWar) k hk
    rw [hne] at h1
    rw [hne2, hne] at h2
    rw [h1] at h2
    exact le_of_eq (Option.some.inj h2).symm

/-- Witness applying `reveal_twice_monotone_spec` at the concrete inputs
of the counterexample state. -/
theorem reveal_twice_monotone_witness :
    fogGame.revealAnimations = [] ∧ ((9 : ℚ)/1000 ≤ (9 : ℚ)/100) := by
  have hcc : getChunkCoords 100 100 = ((0 : ℤ), (0 : ℤ)) := by
    simp only [getChunkCoords, chunkSize]
    norm_num
  have hnn : ∀ m, mapLookup (getChunkCoords 100 100) fogGame.fogOfWar = some m →
      ∀ p : ℤ × ℤ, 0 ≤ m p := by
    intro m hm p
    rw [hcc] at hm
    have hfm : freshMask = m := Option.some.inj hm
    rw [← hfm, freshMask]
    norm_num
  have hlf : mapLookup ((0 : ℤ), (0 : ℤ)) fogGame.fogOfWar = some freshMask := rfl
  have hlc : mapLookup ((0 : ℤ), (0 : ℤ)) fogGame.loadedChunks = some chunk00 := rfl
  have heff1 : revealEffect 100 100 50 fogGame.loadedChunks fogGame.fogOfWar =
      mapInsert ((0 : ℤ), (0 : ℤ))
        (eraseAt (100 - chunk00.worldX) (100 - chunk00.worldY) 50 freshMask)
        fogGame.fogOfWar := by
    simp only [revealEffect, hcc, hlf, hlc]
    norm_num
  have heff2 : revealEffect 100 100 50 fogGame.loadedChunks
      (mapInsert ((0 : ℤ), (0 : ℤ))
        (eraseAt (100 - chunk00.worldX) (100 - chunk00.worldY) 50 freshMask)
        fogGame.fogOfWar) =
      mapInsert ((0 : ℤ), (0 : ℤ))
        (eraseAt (100 - chunk00.worldX) (100 - chunk00.worldY) 50
          (eraseAt (100 - chunk00.worldX) (100 - chunk00.worldY) 50 freshMask))
        fogGame.fogOfWar := by
    simp only [revealEffect, hcc, mapLookup_insert_self, hlc]
    norm_num [mapInsert_insert_self]
  have h1 := runReveal_eq 100 100 50 0 fogGame rfl
  have hanims : (runReveal 100 100 50 0 fogGame).revealAnimations = [] := by
    rw [h1]
    rfl
  have h2 := runReveal_eq 100 100 50 800 (runReveal 100 100 50 0 fogGame) hanims
  refine ⟨rfl, ?_⟩
  refine reveal_twice_monotone_spec 100 100 50 0 800 fogGame rfl hnn
    ((0 : ℤ), (0 : ℤ)) ((100 : ℤ), (100 : ℤ)) ((9 : ℚ)/100) ((9 : ℚ)/1000) ?_ ?_
  · rw [h1]
    simp only [fogAt]
    rw [heff1, mapLookup_insert_self]
    norm_num [eraseAt, gradAlphaSq, freshMask, chunk00]
  · rw [h2, h1]
    simp only [fogAt]
    rw [heff1, heff2, mapLookup_insert_self]
    norm_num [eraseAt, gradAlphaSq, freshMask, chunk00]

/-- C6 counterexample: restoring a persisted fully-fogged blob over a mask
whose pixel had already been cleared to 0 raises that pixel back to 9/10 —
`restoreFogOfWarFromServer` replaces mask contents wholesale, so opacity
is NOT monotonically non-increasing under the persistence-restore
operation. -/
theorem fog_restore_rethickens_counterexample :
    fogAt clearedGame ((0 : ℤ), (0 : ℤ)) ((0 : ℤ), (0 : ℤ)) = some 0 ∧
    fogAt (restoreFogOfWarFromServer
        [(((0 : ℤ), (0 : ℤ)), fun _ => (9 : ℚ)/10)] clearedGame)
        ((0 : ℤ), (0 : ℤ)) ((0 : ℤ), (0 : ℤ)) = some ((9 : ℚ)/10) ∧
    ¬((9 : ℚ)/10 ≤ 0) := by
  refine ⟨rfl, ?_, by norm_num⟩
  rfl

/-- C6 as amended: fog opacity is monotonically non-increasing under
reveal ticks (for nonnegative masks) and chunk delivery leaves every
existing mask unchanged; mask creation resets to the constant 9/10; but
the persistence restore replaces each restored mask wholesale with the
persisted image, which the counterexample shows can increase opacity. -/
theorem fog_monotone_spec :
    (∀ (now : ℤ) (s : GameState) (k : ChunkCoord) (p : ℤ × ℤ) (v : ℚ),
      fogAt s k p = some v → 0 ≤ v →
      ∃ w, fogAt (updateRevealAnimations now s) k p = some w ∧ 0 ≤ w ∧ w ≤ v) ∧
    (∀ (chunks : List (ChunkCoord × ChunkData)) (s : GameState),
      (∀ e ∈ chunks, e.1 = (e.2.x, e.2.y)) →
      ∀ (k : ChunkCoord) (p : ℤ × ℤ) (v : ℚ), fogAt s k p = some v →
        fogAt (handleChunksData chunks s) k p = some v) ∧
    (∀ (cx cy : ℤ) (s : GameState) (p : ℤ × ℤ),
      fogAt (initializeChunkFogOfWar cx cy s) (cx, cy) p = some ((9 : ℚ)/10)) ∧
    (∀ (key : ChunkCoord) (img : FogMask) (s : GameState) (p : ℤ × ℤ),
      fogAt (restoreFogOfWarFromServer [(key, img)] s) key p = some (img p)) := by
  refine ⟨?_, ?_, ?_, ?_⟩
  · intro now s k p v hv hnn
    obtain ⟨w, hw, h1, h2⟩ := runAnims_pixel_mono now s.revealAnimations s k p v hv hnn
    refine ⟨w, ?_, h1, h2⟩
    simpa [updateRevealAnimations, fogAt] using hw
  · intro chunks
    induction chunks with
    | nil =>
      intro s _ k p v hv
      exact hv
    | cons e rest ih =>
      intro s hcons k p v hv
      have hce : e.1 = (e.2.x, e.2.y) := hcons e (List.mem_cons_self e rest)
      have hrest : ∀ e' ∈ rest, e'.1 = (e'.2.x, e'.2.y) :=
        fun e' he' => hcons e' (List.mem_cons_of_mem e he')
      simp only [handleChunksData, List.foldl_cons] at *
      by_cases h0 : (mapLookup e.1
          ({ s with loadedChunks := mapInsert e.1 e.2 s.loadedChunks } :
            GameState).fogOfWar).isNone
      · rw [if_pos h0]
        refine ih _ hrest k p v ?_
        have hkne : (e.2.x, e.2.y) ≠ k := by
          intro hc
          rw [← hce] at hc
          subst hc
          simp only [fogAt] at hv
          rw [Option.isNone_iff_eq_none] at h0
          rw [h0] at hv
          simp at hv
        simpa [fogAt, initializeChunkFogOfWar, mapLookup_insert_ne _ _ hkne] using hv
      · rw [if_neg h0]
        exact ih _ hrest k p v hv
  · intro cx cy s p
    simp [fogAt, initializeChunkFogOfWar, mapLookup_insert_self]
  · intro key img s p
    simp only [restoreFogOfWarFromServer, List.foldl_cons, List.foldl_nil]
    by_cases h0 : (mapLookup key s.fogOfWar).isNone
    · rw [if_pos h0]
      have hl : mapLookup key
          (initializeChunkFogOfWar key.1 key.2 s).fogOfWar =
            some (fun _ => (9 : ℚ)/10) := by
        simp only [initializeChunkFogOfWar]
        rw [Prod.mk.eta, mapLookup_insert_self]
      rw [hl]
      simp [fogAt, mapLookup_insert_self]
    · rw [if_neg h0]
      have hex : ∃ m, mapLookup key s.fogOfWar = some m := by
        cases ho : mapLookup key s.fogOfWar with
        | none =>
          rw [ho] at h0
          simp at h0
        | some m => exact ⟨m, rfl⟩
      obtain ⟨m, hm⟩ := hex
      rw [hm]
      simp [fogAt, mapLookup_insert_self]

/-- Witness instantiating `fog_monotone_spec` on concrete states. -/
theorem fog_monotone_witness :
    (∃ w, fogAt (updateRevealAnimations 0 fogGame) ((0 : ℤ), (0 : ℤ))
        ((0 : ℤ), (0 : ℤ)) = some w ∧ 0 ≤ w ∧ w ≤ (9 : ℚ)/10) ∧
    fogAt (handleChunksData [(((1 : ℤ), (1 : ℤ)),
        { x := 1, y := 1, worldX := 512, worldY := 512 })] fogGame)
      ((0 : ℤ), (0 : ℤ)) ((0 : ℤ), (0 : ℤ)) = some ((9 : ℚ)/10) ∧
    fogAt (initializeChunkFogOfWar 2 3 emptyGame) ((2 : ℤ), (3 : ℤ))
      ((0 : ℤ), (0 : ℤ)) = some ((9 : ℚ)/10) :=
  ⟨fog_monotone_spec.1 0 fogGame ((0 : ℤ), (0 : ℤ)) ((0 : ℤ), (0 : ℤ)) ((9 : ℚ)/10)
      rfl (by norm_num),
   fog_monotone_spec.2.1 [(((1 : ℤ), (1 : ℤ)),
        { x := 1, y := 1, worldX := 512, worldY := 512 })] fogGame (by decide)
      ((0 : ℤ), (0 : ℤ)) ((0 : ℤ), (0 : ℤ)) ((9 : ℚ)/10) rfl,
   fog_monotone_spec.2.2.1 2 3 emptyGame ((0 : ℤ), (0 : ℤ))⟩
